import Mathlib

/-!
Shallow embedding of `ext/obhook/obhook.c`, the out-of-box hook registry of
the MBA VMI engine, together with proofs checking the design specification
against it.

Modelling conventions:
* `target_ulong` values (`cr3`, `addr`) are natural numbers; the only bit
  operation performed on them in the source is the kernel-address mask test.
* The `uthash` hash tables are modelled by their documented map behaviour:
  a table is the list of inserted node ids in insertion order (which is the
  order `HASH_ITER` visits), nodes live in a heap keyed by id, `HASH_FIND`
  is a scan by key, `HASH_ADD` appends, and `HASH_DEL` removes a node from
  the given head list.  `malloc`/`calloc` results are modelled by a counter
  supplying fresh ids, with an oracle (`allocs`) deciding whether each
  successive `calloc` succeeds (`[]` means every allocation succeeds).
* The `utlist` callback list of a site holds the uids of its callback
  records; the record owned by descriptor-table slot `uid` is the single
  record a C pointer with that uid aliases.
* Operations return `Option` results; `none` marks undefined behaviour of
  the C source on that input (out-of-bounds array indexing, `strncpy` from
  a null pointer, dereference of freed memory).  All defined outcomes are
  `some (state, return-value)`.
-/

/-- Modelled from the spec: the descriptor-space capacity `MAX_HOOKS`
(`MAX_NM_OBHOOK`) is declared in the header `obhook.h`, which is not part of
the sources here; the spec fixes no numeric value (the source's `uint16_t`
uid field only requires it to be at most 2 ^ 16).  We fix a small concrete
capacity; every theorem refers to it only through this name. -/
def MAX_NM_OBHOOK : Nat := 4

/-- Modelled from the spec: the label capacity `MAX_LABEL_LENGTH`
(`MAX_SZ_OBHOOK_LABEL`) from the missing header `obhook.h`; a label must be
strictly shorter than this so that the terminator fits. -/
def MAX_SZ_OBHOOK_LABEL : Nat := 16

/-- `#define MASK_KERN_ADDR 0xffff000000000000` (obhook.c line 24). -/
def MASK_KERN_ADDR : Nat := 0xffff000000000000

/-- Modelled from the spec: the error kinds of `OBHOOK_ERRNO` are declared
in the missing header `obhook.h`; the constructor names are the ones the
source assigns to `obhook_errno`. -/
inductive OBHOOK_ERRNO where
  | OBHOOK_ERR_FULL_HOOK
  | OBHOOK_ERR_INVALID_ADDR
  | OBHOOK_ERR_INVALID_LABEL
  | OBHOOK_ERR_INVALID_CALLBACK
  | OBHOOK_ERR_INVALID_DESCRIPTOR
  | OBHOOK_ERR_FAIL
deriving Repr, DecidableEq

/-- Identity of a heap-allocated `obhk_ht_record` (a malloc address). -/
abbrev NodeId := Nat

/-- `struct obhk_cb_record`: one registered hook.  `ht_rec` is the reverse
pointer to the owning second-level hash record, `cb_func` the opaque
callback function pointer (as an identifier; the null pointer is
represented by `Option.none` at the interface). -/
structure obhk_cb_record where
  ht_rec : NodeId
  uid : Nat
  enabled : Bool
  universal : Bool
  label : String
  cb_func : Nat
deriving Repr, DecidableEq

/-- `struct obhk_ht_record`: used both as a first-level node (keyed by
`cr3`, owning `proc_obhk_tbl`) and as a second-level node (keyed by `addr`,
owning `cb_list`).  `proc_obhk_tbl` holds ids of child records in insertion
order; `cb_list` holds the uids of the callback records at this site in
registration order. -/
structure obhk_ht_record where
  addr : Nat
  cr3 : Nat
  proc_obhk_tbl : List NodeId
  cb_list : List Nat
deriving Repr, DecidableEq

/-- The global state: `obhook_errno` (`none` = never assigned),
`obhook_pending_hooks`, and `obhk_ctx` (`hook_tbl` and `index_tbl`),
together with the heap of `obhk_ht_record` nodes and the fresh-id counter
of the allocator. -/
structure obhook_state where
  obhook_errno : Option OBHOOK_ERRNO
  obhook_pending_hooks : Bool
  node_heap : List (NodeId × obhk_ht_record)
  next_node : NodeId
  hook_tbl : List NodeId
  index_tbl : List (Option obhk_cb_record)
deriving Repr, DecidableEq

/-- The zero-initialised globals of obhook.c. -/
def obhk_init : obhook_state :=
  { obhook_errno := none
    obhook_pending_hooks := false
    node_heap := []
    next_node := 0
    hook_tbl := []
    index_tbl := List.replicate MAX_NM_OBHOOK none }

/-- Dereference a node id (first binding wins, as for a malloc address). -/
def heap_get : List (NodeId × obhk_ht_record) → NodeId → Option obhk_ht_record
  | [], _ => none
  | (i, n) :: rest, id => if i = id then some n else heap_get rest id

/-- Overwrite the record stored at `id` (an in-place store through a
pointer); if `id` is absent the binding is added. -/
def heap_set : List (NodeId × obhk_ht_record) → NodeId → obhk_ht_record →
    List (NodeId × obhk_ht_record)
  | [], id, n => [(id, n)]
  | (i, m) :: rest, id, n =>
      if i = id then (i, n) :: rest else (i, m) :: heap_set rest id n

/-- `free` of a node. -/
def heap_erase (h : List (NodeId × obhk_ht_record)) (id : NodeId) :
    List (NodeId × obhk_ht_record) :=
  h.filter (fun p => p.1 ≠ id)

/-- The scan of `get_obhook_uid` (obhook.c lines 99-107): index of the
first empty slot, or the list length if every slot is occupied. -/
def find_free_slot : List (Option obhk_cb_record) → Nat
  | [] => 0
  | none :: _ => 0
  | some _ :: rest => find_free_slot rest + 1

/-- `get_obhook_uid`: first free slot of the index table as the new uid,
`-1` if no space is left. -/
def get_obhook_uid (st : obhook_state) : Int :=
  if find_free_slot st.index_tbl = MAX_NM_OBHOOK then -1
  else (find_free_slot st.index_tbl : Int)

/-- `is_kern_addr` (obhook.c lines 111-113). -/
def is_kern_addr (addr : Nat) : Bool :=
  Nat.land addr MASK_KERN_ADDR == MASK_KERN_ADDR

/-- The label check of obhook.c line 151:
`label != NULL && strlen(label) >= MAX_SZ_OBHOOK_LABEL`. -/
def label_too_long : Option String → Bool
  | none => false
  | some s => decide (MAX_SZ_OBHOOK_LABEL ≤ s.length)

/-- `HASH_FIND` on a `cr3`-keyed table: scan the node list, dereferencing
each node; `none` marks a dereference of freed memory (undefined
behaviour), `some none` means the key is absent. -/
def find_by_cr3 (heap : List (NodeId × obhk_ht_record)) :
    List NodeId → Nat → Option (Option NodeId)
  | [], _ => some none
  | id :: rest, cr3 =>
      match heap_get heap id with
      | none => none
      | some n => if n.cr3 = cr3 then some (some id) else find_by_cr3 heap rest cr3

/-- `HASH_FIND` on an `addr`-keyed second-level table. -/
def find_by_addr (heap : List (NodeId × obhk_ht_record)) :
    List NodeId → Nat → Option (Option NodeId)
  | [], _ => some none
  | id :: rest, addr =>
      match heap_get heap id with
      | none => none
      | some n => if n.addr = addr then some (some id) else find_by_addr heap rest addr

/-- obhook.c lines 162-178: look up the first-level record for `cr3`,
creating it (zeroed by `calloc`, then `cr3` set, then `HASH_ADD`) if
absent.  Result: updated state, node id, remaining allocation oracle;
`Except.error` is a failed `calloc`, outer `none` undefined behaviour. -/
def find_or_create_scope (st : obhook_state) (allocs : List Bool) (cr3 : Nat) :
    Option (Except OBHOOK_ERRNO (obhook_state × NodeId × List Bool)) :=
  match find_by_cr3 st.node_heap st.hook_tbl cr3 with
  | none => none
  | some (some id) => some (.ok (st, id, allocs))
  | some none =>
      if allocs.headD true = false then some (.error .OBHOOK_ERR_FAIL)
      else
        some (.ok
          ({ st with
              node_heap := st.node_heap ++
                [(st.next_node, { addr := 0, cr3 := cr3, proc_obhk_tbl := [], cb_list := [] })]
              next_node := st.next_node + 1
              hook_tbl := st.hook_tbl ++ [st.next_node] },
            st.next_node, allocs.tail))

/-- obhook.c lines 180-195: look up the second-level record for `addr`
inside the scope node `htId`, creating it and linking it into the scope's
`proc_obhk_tbl` if absent. -/
def find_or_create_site (st : obhook_state) (allocs : List Bool)
    (htId : NodeId) (cr3 addr : Nat) :
    Option (Except OBHOOK_ERRNO (obhook_state × NodeId × List Bool)) :=
  match heap_get st.node_heap htId with
  | none => none
  | some ht_rec =>
      match find_by_addr st.node_heap ht_rec.proc_obhk_tbl addr with
      | none => none
      | some (some pid) => some (.ok (st, pid, allocs))
      | some none =>
          if allocs.headD true = false then some (.error .OBHOOK_ERR_FAIL)
          else
            some (.ok
              ({ st with
                  node_heap :=
                    heap_set
                      (st.node_heap ++
                        [(st.next_node,
                          { addr := addr, cr3 := cr3, proc_obhk_tbl := [], cb_list := [] })])
                      htId
                      { ht_rec with proc_obhk_tbl := ht_rec.proc_obhk_tbl ++ [st.next_node] }
                  next_node := st.next_node + 1 },
                st.next_node, allocs.tail))

/-- obhook.c lines 205-221: initialise the callback record (`uid` is a
`uint16_t`, hence the reduction mod 2 ^ 16; `universal` is set from the
owning site's `cr3`), copy the label (`strncpy` from a null label pointer
is undefined behaviour), `LL_APPEND` it to the site's callback list, bind
it in the index table, raise the pending-hooks flag, and return the uid. -/
def install_cb (st : obhook_state) (pId : NodeId) (new_uid : Nat)
    (label : Option String) (f : Nat) : Option (obhook_state × Int) :=
  match label with
  | none => none
  | some lab =>
      match heap_get st.node_heap pId with
      | none => none
      | some pnode =>
          some
            ({ st with
                node_heap :=
                  heap_set st.node_heap pId
                    { pnode with cb_list := pnode.cb_list ++ [new_uid % 65536] }
                index_tbl :=
                  st.index_tbl.set (new_uid % 65536)
                    (some
                      { ht_rec := pId, uid := new_uid % 65536, enabled := true,
                        universal := pnode.cr3 == 0, label := lab, cb_func := f })
                obhook_pending_hooks := true },
              ((new_uid % 65536 : Nat) : Int))

/-- `add_obhk_internal` (obhook.c lines 127-226): capacity check, then the
universal-hook address check, label check and callback check, then the
two-level find-or-create, the callback-record allocation and its
installation.  A failed `calloc` of the callback record reports
`OBHOOK_ERR_FAIL` before the label is copied. -/
def add_obhk_internal (st : obhook_state) (allocs : List Bool) (cr3 addr : Nat)
    (label : Option String) (cb : Option Nat) : Option (obhook_state × Int) :=
  if get_obhook_uid st = -1 then
    some ({ st with obhook_errno := some .OBHOOK_ERR_FULL_HOOK }, -1)
  else if cr3 = 0 ∧ is_kern_addr addr = false then
    some ({ st with obhook_errno := some .OBHOOK_ERR_INVALID_ADDR }, -1)
  else if label_too_long label = true then
    some ({ st with obhook_errno := some .OBHOOK_ERR_INVALID_LABEL }, -1)
  else
    match cb with
    | none => some ({ st with obhook_errno := some .OBHOOK_ERR_INVALID_CALLBACK }, -1)
    | some f =>
        match find_or_create_scope st allocs cr3 with
        | none => none
        | some (.error e) => some ({ st with obhook_errno := some e }, -1)
        | some (.ok (st1, htId, allocs1)) =>
            match find_or_create_site st1 allocs1 htId cr3 addr with
            | none => none
            | some (.error e) => some ({ st1 with obhook_errno := some e }, -1)
            | some (.ok (st2, pId, allocs2)) =>
                if allocs2.headD true = false then
                  some ({ st2 with obhook_errno := some .OBHOOK_ERR_FAIL }, -1)
                else
                  install_cb st2 pId (get_obhook_uid st).toNat label f

/-- `toggle_obhk` (obhook.c lines 115-125).  The C code indexes
`index_tbl[obhook_d]` without any bounds check, so a descriptor outside
`[0, MAX_NM_OBHOOK)` is an out-of-bounds access: undefined behaviour,
modelled as `none`. -/
def toggle_obhk (st : obhook_state) (obhook_d : Int) (enabled : Bool) :
    Option (obhook_state × Int) :=
  if obhook_d < 0 ∨ (MAX_NM_OBHOOK : Int) ≤ obhook_d then none
  else
    match st.index_tbl.getD obhook_d.toNat none with
    | none => some ({ st with obhook_errno := some .OBHOOK_ERR_INVALID_DESCRIPTOR }, -1)
    | some cb =>
        some
          ({ st with
              index_tbl := st.index_tbl.set obhook_d.toNat (some { cb with enabled := enabled }) },
            0)

/-- `obhook_enable`. -/
def obhook_enable (st : obhook_state) (obhook_d : Int) : Option (obhook_state × Int) :=
  toggle_obhk st obhook_d true

/-- `obhook_disable`. -/
def obhook_disable (st : obhook_state) (obhook_d : Int) : Option (obhook_state × Int) :=
  toggle_obhk st obhook_d false

/-- `obhook_delete` (obhook.c lines 238-272).  Again `index_tbl[obhook_d]`
is indexed without a bounds check (`none` outside the range).  The callback
is unlinked from the owning site's `cb_list` (`LL_DELETE`) and, when the
list becomes empty, the source performs
`HASH_DEL( obhk_ctx->hook_tbl, ht_rec ); free( ht_rec );` where `ht_rec`
is the second-level site node — a node that was inserted into its parent
scope's `proc_obhk_tbl`, not into `hook_tbl`.  We model this misuse by its
kindest reading: removal of the node id from the `hook_tbl` list only (a
no-op when it is not there) followed by the free; the parent's
`proc_obhk_tbl` is left holding the freed id.  Finally the descriptor slot
is cleared. -/
def obhook_delete (st : obhook_state) (obhook_d : Int) : Option (obhook_state × Int) :=
  if obhook_d < 0 ∨ (MAX_NM_OBHOOK : Int) ≤ obhook_d then none
  else
    match st.index_tbl.getD obhook_d.toNat none with
    | none => some ({ st with obhook_errno := some .OBHOOK_ERR_INVALID_DESCRIPTOR }, -1)
    | some cb_rec =>
        match heap_get st.node_heap cb_rec.ht_rec with
        | none => none
        | some ht_rec =>
            if ht_rec.cb_list.erase cb_rec.uid = [] then
              some
                ({ st with
                    node_heap :=
                      heap_erase
                        (heap_set st.node_heap cb_rec.ht_rec
                          { ht_rec with cb_list := ht_rec.cb_list.erase cb_rec.uid })
                        cb_rec.ht_rec
                    hook_tbl := st.hook_tbl.erase cb_rec.ht_rec
                    index_tbl := st.index_tbl.set obhook_d.toNat none },
                  0)
            else
              some
                ({ st with
                    node_heap :=
                      heap_set st.node_heap cb_rec.ht_rec
                        { ht_rec with cb_list := ht_rec.cb_list.erase cb_rec.uid }
                    index_tbl := st.index_tbl.set obhook_d.toNat none },
                  0)

/-- One observable step of `obhook_list`: a printed line or a callback
invocation (`cb_rec->cb_func(NULL)`). -/
inductive list_event where
  | cr3_line (cr3 : Nat)
  | addr_line (addr : Nat)
  | cb_line (uid : Nat) (label : String) (enabled : Bool)
  | invoke (cb_func : Nat)
deriving Repr, DecidableEq

/-- The `LL_FOREACH` body of `obhook_list` (lines 296-301): print each
callback record and invoke it.  Dereferencing a uid that no longer owns a
live record is a use after free: undefined behaviour. -/
def list_cbs (index_tbl : List (Option obhk_cb_record)) :
    List Nat → Option (List list_event)
  | [] => some []
  | uid :: rest =>
      match index_tbl.getD uid none with
      | none => none
      | some cb =>
          match list_cbs index_tbl rest with
          | none => none
          | some evs =>
              some (.cb_line cb.uid cb.label cb.enabled :: .invoke cb.cb_func :: evs)

/-- The inner `HASH_ITER` of `obhook_list` (lines 291-302) over the
second-level table of one scope. -/
def list_sites (heap : List (NodeId × obhk_ht_record))
    (index_tbl : List (Option obhk_cb_record)) :
    List NodeId → Option (List list_event)
  | [] => some []
  | pid :: rest =>
      match heap_get heap pid with
      | none => none
      | some pnode =>
          match list_cbs index_tbl pnode.cb_list, list_sites heap index_tbl rest with
          | some evs1, some evs2 => some (.addr_line pnode.addr :: (evs1 ++ evs2))
          | _, _ => none

/-- The outer `HASH_ITER` of `obhook_list` (lines 285-303). -/
def list_scopes (heap : List (NodeId × obhk_ht_record))
    (index_tbl : List (Option obhk_cb_record)) :
    List NodeId → Option (List list_event)
  | [] => some []
  | id :: rest =>
      match heap_get heap id with
      | none => none
      | some node =>
          match list_sites heap index_tbl node.proc_obhk_tbl,
              list_scopes heap index_tbl rest with
          | some evs1, some evs2 => some (.cr3_line node.cr3 :: (evs1 ++ evs2))
          | _, _ => none

/-- `obhook_list` (obhook.c lines 274-307): emits the diagnostic lines and
callback invocations in traversal order, leaves the registry untouched,
and returns `-1`. -/
def obhook_list (st : obhook_state) : Option (obhook_state × List list_event × Int) :=
  match list_scopes st.node_heap st.index_tbl st.hook_tbl with
  | none => none
  | some evs => some (st, evs, -1)

/-- `obhook_add_process` (obhook.c lines 309-311). -/
def obhook_add_process (st : obhook_state) (allocs : List Bool) (cr3 addr : Nat)
    (label : Option String) (cb : Option Nat) : Option (obhook_state × Int) :=
  add_obhk_internal st allocs cr3 addr label cb

/-- `obhook_add_universal` (obhook.c lines 313-315). -/
def obhook_add_universal (st : obhook_state) (allocs : List Bool) (kern_addr : Nat)
    (label : Option String) (cb : Option Nat) : Option (obhook_state × Int) :=
  add_obhk_internal st allocs 0 kern_addr label cb

/-- The callback functions invoked during a `obhook_list` trace. -/
def invoked_funcs (evs : List list_event) : List Nat :=
  evs.filterMap (fun e => match e with | .invoke f => some f | _ => none)

/-- Spec-side enumeration for the amended reading of List's side effect:
the callback function of every registered callback reachable at the given
site, in registration order, taking no account of the `enabled` flag. -/
def regd_funcs_cbs (index_tbl : List (Option obhk_cb_record)) :
    List Nat → Option (List Nat)
  | [] => some []
  | uid :: rest =>
      match index_tbl.getD uid none with
      | none => none
      | some cb => (regd_funcs_cbs index_tbl rest).map (cb.cb_func :: ·)

/-- Spec-side enumeration over the sites of one scope. -/
def regd_funcs_sites (heap : List (NodeId × obhk_ht_record))
    (index_tbl : List (Option obhk_cb_record)) :
    List NodeId → Option (List Nat)
  | [] => some []
  | pid :: rest =>
      match heap_get heap pid with
      | none => none
      | some pnode =>
          match regd_funcs_cbs index_tbl pnode.cb_list,
              regd_funcs_sites heap index_tbl rest with
          | some f1, some f2 => some (f1 ++ f2)
          | _, _ => none

/-- Spec-side enumeration over all scopes. -/
def regd_funcs_scopes (heap : List (NodeId × obhk_ht_record))
    (index_tbl : List (Option obhk_cb_record)) :
    List NodeId → Option (List Nat)
  | [] => some []
  | id :: rest =>
      match heap_get heap id with
      | none => none
      | some node =>
          match regd_funcs_sites heap index_tbl node.proc_obhk_tbl,
              regd_funcs_scopes heap index_tbl rest with
          | some f1, some f2 => some (f1 ++ f2)
          | _, _ => none

/-- The callback functions of all currently registered callbacks, in the
traversal order of the registry, independent of their `enabled` flags. -/
def registered_funcs (st : obhook_state) : Option (List Nat) :=
  regd_funcs_scopes st.node_heap st.index_tbl st.hook_tbl

/-- `slots_ok i l`: every occupied slot of `l` (counting indices from `i`)
holds the callback record whose uid equals its index. -/
def slots_ok : Nat → List (Option obhk_cb_record) → Bool
  | _, [] => true
  | i, none :: rest => slots_ok (i + 1) rest
  | i, some cb :: rest => (cb.uid == i) && slots_ok (i + 1) rest

/-- The descriptor-table invariant: the table has capacity `MAX_NM_OBHOOK`
and slot `i` is either empty or holds exactly the callback whose uid is
`i`. -/
def slot_inv (st : obhook_state) : Prop :=
  st.index_tbl.length = MAX_NM_OBHOOK ∧ slots_ok 0 st.index_tbl = true

/-- The descriptor table holds callbacks in exactly its first `k` slots. -/
def filled_upto (st : obhook_state) (k : Nat) : Prop :=
  st.index_tbl.length = MAX_NM_OBHOOK ∧
  ∀ i < MAX_NM_OBHOOK, ((st.index_tbl.getD i none).isSome = true ↔ i < k)

/-- Heap well-formedness: allocated ids are below the allocator counter,
every id in the top-level table dereferences, and every id in any node's
second-level table dereferences. -/
def st_wf (st : obhook_state) : Prop :=
  (∀ p ∈ st.node_heap, p.1 < st.next_node) ∧
  (∀ id ∈ st.hook_tbl, (heap_get st.node_heap id).isSome = true) ∧
  (∀ p ∈ st.node_heap, ∀ pid ∈ p.2.proc_obhk_tbl,
    (heap_get st.node_heap pid).isSome = true)

/-- Arguments `(cr3, addr, label, cb_func)` of an Add call that satisfy
every validation check: the address is in kernel space whenever `cr3 = 0`,
and the label fits the label buffer. -/
def valid_args (a : Nat × Nat × String × Nat) : Prop :=
  (a.1 = 0 → is_kern_addr a.2.1 = true) ∧ a.2.2.1.length < MAX_SZ_OBHOOK_LABEL

instance : DecidablePred valid_args := fun _ =>
  inferInstanceAs (Decidable (_ ∧ _))

/-- Perform a sequence of Add calls (with every allocation succeeding),
collecting the returned descriptors; undefined behaviour propagates. -/
def run_adds (st : obhook_state) : List (Nat × Nat × String × Nat) →
    Option (obhook_state × List Int)
  | [] => some (st, [])
  | a :: rest =>
      match add_obhk_internal st [] a.1 a.2.1 (some a.2.2.1) (some a.2.2.2) with
      | none => none
      | some (st2, r) =>
          match run_adds st2 rest with
          | none => none
          | some (st3, rs) => some (st3, r :: rs)

/-- Registry state after registering one process hook at
`(cr3 = 3, addr = 16)` with label `"a"` and callback `7`; the Add returns
descriptor `0`. -/
def c1_after_add : obhook_state :=
  ((obhook_add_process obhk_init [] 3 16 (some "a") (some 7)).map Prod.fst).getD obhk_init

/-- The state after deleting that only hook again. -/
def c1_after_delete : obhook_state :=
  ((obhook_delete c1_after_add 0).map Prod.fst).getD obhk_init

/-- The state after instead disabling that only hook. -/
def c5_after_disable : obhook_state :=
  ((obhook_disable c1_after_add 0).map Prod.fst).getD obhk_init

/-- Result of an Add whose second `calloc` (the one building the
second-level site node) fails. -/
def c4_result : Option (obhook_state × Int) :=
  obhook_add_process obhk_init [true, false] 3 16 (some "a") (some 7)

/-- A registry whose descriptor table is completely occupied. -/
def full_registry_example : obhook_state :=
  { obhk_init with
      index_tbl :=
        (List.range MAX_NM_OBHOOK).map (fun i =>
          some { ht_rec := 0, uid := i, enabled := true, universal := false,
                 label := "", cb_func := i + 1 }) }

/-- C1: deleting the only hook at a site does succeed and does free the
site node, but the node is removed from the top-level `hook_tbl` (where it
never was) instead of from its parent scope's `proc_obhk_tbl`: the parent
scope still lists the freed site, and the following List dereferences
freed memory (undefined behaviour) instead of simply omitting the site. -/
theorem obhook_delete_dangles_site :
    (obhook_add_process obhk_init [] 3 16 (some "a") (some 7)).map Prod.snd = some 0 ∧
    (obhook_delete c1_after_add 0).map Prod.snd = some 0 ∧
    heap_get c1_after_delete.node_heap 1 = none ∧
    heap_get c1_after_delete.node_heap 0 =
      some { addr := 0, cr3 := 3, proc_obhk_tbl := [1], cb_list := [] } ∧
    c1_after_delete.hook_tbl = [0] ∧
    obhook_list c1_after_delete = none := by
  decide

/-- C2: `toggle_obhk` (hence Enable and Disable) and `obhook_delete` index
`index_tbl[obhook_d]` without any range check, so a descriptor outside
`[0, MAX_NM_OBHOOK)` performs an out-of-bounds access (undefined
behaviour) instead of failing with `OBHOOK_ERR_INVALID_DESCRIPTOR`. -/
theorem obhook_toggle_without_bounds_check :
    obhook_enable obhk_init (MAX_NM_OBHOOK : Int) = none ∧
    obhook_disable obhk_init (-1) = none ∧
    obhook_delete obhk_init (MAX_NM_OBHOOK : Int) = none := by
  decide

/-- C3: an Add with a null label passes every validation check, but the
callback-record initialisation then executes `strncpy` with a null source
pointer — undefined behaviour — so the call does not return a descriptor;
the identical call with a short label succeeds with descriptor 0. -/
theorem obhook_add_null_label_ub :
    obhook_add_process obhk_init [] 3 16 none (some 7) = none ∧
    (obhook_add_process obhk_init [] 3 16 (some "a") (some 7)).map Prod.snd = some 0 := by
  decide

/-- C4: when the `calloc` building the second-level site record fails, the
Add reports `OBHOOK_ERR_FAIL` and returns `-1`, but the first-level scope
record created moments earlier in the same call stays behind in
`hook_tbl`: the registry state is not the state from before the call. -/
theorem obhook_add_alloc_fail_retains_scope :
    c4_result.map Prod.snd = some (-1) ∧
    c4_result.map (fun p => p.1.obhook_errno) = some (some .OBHOOK_ERR_FAIL) ∧
    c4_result.map (fun p => p.1.hook_tbl) = some [0] ∧
    c4_result.map (fun p => heap_get p.1.node_heap 0) =
      some (some { addr := 0, cr3 := 3, proc_obhk_tbl := [], cb_list := [] }) ∧
    obhk_init.hook_tbl = [] := by
  decide

/-- C5 counterexample: the only registered callback is disabled, yet List
still invokes it (`invoke 7` appears in the trace), so the set of invoked
callbacks is not the set of enabled ones. -/
theorem obhook_list_invokes_disabled_cb :
    (c5_after_disable.index_tbl.getD 0 none).map (fun cb => cb.enabled) = some false ∧
    obhook_list c5_after_disable =
      some (c5_after_disable,
        [.cr3_line 3, .addr_line 16, .cb_line 0 "a" false, .invoke 7], -1) := by
  decide

/-- C9 counterexample: with every descriptor slot occupied,
`obhook_add_universal` on the non-kernel address `0x1000` fails with
`OBHOOK_ERR_FULL_HOOK`, not with `OBHOOK_ERR_INVALID_ADDR`, although the
address-mask condition of the claim holds. -/
theorem obhook_full_registry_masks_invalid_addr :
    is_kern_addr 4096 = false ∧
    obhook_add_universal full_registry_example [] 4096 (some "x") (some 1) =
      some ({ full_registry_example with obhook_errno := some .OBHOOK_ERR_FULL_HOOK }, -1) := by
  decide

/-! Small facts about the heap and the descriptor-table list. -/

theorem heap_get_mem {h : List (NodeId × obhk_ht_record)} {id : NodeId}
    {n : obhk_ht_record} (hg : heap_get h id = some n) : (id, n) ∈ h := by
  induction h with
  | nil => simp [heap_get] at hg
  | cons p rest ih =>
    obtain ⟨i, m⟩ := p
    rw [heap_get] at hg
    by_cases hi : i = id
    · rw [if_pos hi] at hg
      cases hg
      subst hi
      exact List.mem_cons_self _ _
    · rw [if_neg hi] at hg
      exact List.mem_cons_of_mem _ (ih hg)

theorem heap_get_append_left {h l : List (NodeId × obhk_ht_record)} {id : NodeId}
    (hs : (heap_get h id).isSome = true) : heap_get (h ++ l) id = heap_get h id := by
  induction h with
  | nil => simp [heap_get] at hs
  | cons p rest ih =>
    obtain ⟨i, m⟩ := p
    rw [heap_get] at hs ⊢
    rw [List.cons_append, heap_get]
    by_cases hi : i = id
    · rw [if_pos hi]
      rw [if_pos hi]
    · rw [if_neg hi] at hs ⊢
      rw [if_neg hi]
      exact ih hs

theorem heap_get_append_fresh {h : List (NodeId × obhk_ht_record)} {id : NodeId}
    {v : obhk_ht_record} (H : ∀ p ∈ h, p.1 ≠ id) :
    heap_get (h ++ [(id, v)]) id = some v := by
  induction h with
  | nil => simp [heap_get]
  | cons p rest ih =>
    obtain ⟨i, m⟩ := p
    rw [List.cons_append, heap_get]
    rw [if_neg (H (i, m) (List.mem_cons_self _ _))]
    exact ih (fun q hq => H q (List.mem_cons_of_mem _ hq))

theorem heap_get_set_self {h : List (NodeId × obhk_ht_record)} {id : NodeId}
    {v : obhk_ht_record} : heap_get (heap_set h id v) id = some v := by
  induction h with
  | nil => simp [heap_set, heap_get]
  | cons p rest ih =>
    obtain ⟨i, m⟩ := p
    rw [heap_set]
    by_cases hi : i = id
    · rw [if_pos hi, heap_get, if_pos hi]
    · rw [if_neg hi, heap_get, if_neg hi]
      exact ih

theorem heap_get_set_other {h : List (NodeId × obhk_ht_record)} {id x : NodeId}
    {v : obhk_ht_record} (hx : x ≠ id) :
    heap_get (heap_set h id v) x = heap_get h x := by
  induction h with
  | nil =>
    rw [heap_set, heap_get, heap_get, if_neg (fun hc : id = x => hx hc.symm), heap_get]
  | cons p rest ih =>
    obtain ⟨i, m⟩ := p
    rw [heap_set]
    by_cases hi : i = id
    · have hne : ¬ i = x := fun hc => hx (by rw [← hc]; exact hi)
      rw [if_pos hi, heap_get, heap_get, if_neg hne, if_neg hne]
    · rw [if_neg hi, heap_get, heap_get]
      by_cases hix : i = x
      · rw [if_pos hix, if_pos hix]
      · rw [if_neg hix, if_neg hix]
        exact ih

theorem mem_heap_set {h : List (NodeId × obhk_ht_record)} {id : NodeId}
    {v : obhk_ht_record} {p : NodeId × obhk_ht_record}
    (hp : p ∈ heap_set h id v) : p = (id, v) ∨ p ∈ h := by
  induction h with
  | nil =>
    simp [heap_set] at hp
    exact Or.inl hp
  | cons q rest ih =>
    obtain ⟨i, m⟩ := q
    rw [heap_set] at hp
    by_cases hi : i = id
    · rw [if_pos hi] at hp
      rcases List.mem_cons.mp hp with h1 | h1
      · subst hi
        exact Or.inl h1
      · exact Or.inr (List.mem_cons_of_mem _ h1)
    · rw [if_neg hi] at hp
      rcases List.mem_cons.mp hp with h1 | h1
      · exact Or.inr (h1 ▸ List.mem_cons_self _ _)
      · rcases ih h1 with h2 | h2
        · exact Or.inl h2
        · exact Or.inr (List.mem_cons_of_mem _ h2)

theorem heap_get_set_isSome {h : List (NodeId × obhk_ht_record)} {id x : NodeId}
    {v : obhk_ht_record} (hs : (heap_get h x).isSome = true) :
    (heap_get (heap_set h id v) x).isSome = true := by
  by_cases hx : x = id
  · subst hx
    rw [heap_get_set_self]
    rfl
  · rw [heap_get_set_other hx]
    exact hs

theorem heap_get_append_isSome {h l : List (NodeId × obhk_ht_record)} {id : NodeId}
    (hs : (heap_get h id).isSome = true) : (heap_get (h ++ l) id).isSome = true := by
  rw [heap_get_append_left hs]
  exact hs

/-! `List.getD` and `List.set`. -/

theorem getD_set_self {α : Type} : ∀ (l : List α) (i : Nat) (a d : α),
    i < l.length → (l.set i a).getD i d = a := by
  intro l
  induction l with
  | nil => intro i a d hi; simp at hi
  | cons x rest ih =>
    intro i a d hi
    cases i with
    | zero => rfl
    | succ j =>
      rw [List.set_cons_succ, List.getD_cons_succ]
      exact ih j a d (by simpa using hi)

theorem getD_set_other {α : Type} : ∀ (l : List α) (i j : Nat) (a d : α),
    i ≠ j → (l.set i a).getD j d = l.getD j d := by
  intro l
  induction l with
  | nil => intro i j a d hij; rfl
  | cons x rest ih =>
    intro i j a d hij
    cases i with
    | zero =>
      cases j with
      | zero => exact absurd rfl hij
      | succ j2 => rfl
    | succ i2 =>
      cases j with
      | zero => rfl
      | succ j2 =>
        rw [List.set_cons_succ, List.getD_cons_succ, List.getD_cons_succ]
        exact ih i2 j2 a d (fun hc => hij (by rw [hc]))

/-! The free-slot scan. -/

theorem find_free_slot_le_length : ∀ l : List (Option obhk_cb_record),
    find_free_slot l ≤ l.length := by
  intro l
  induction l with
  | nil => exact Nat.le_refl 0
  | cons x rest ih =>
    cases x with
    | none => exact Nat.zero_le _
    | some c =>
      rw [find_free_slot, List.length_cons]
      exact Nat.succ_le_succ ih

theorem find_free_slot_spec : ∀ l : List (Option obhk_cb_record),
    find_free_slot l < l.length → l.getD (find_free_slot l) none = none := by
  intro l
  induction l with
  | nil => intro h; simp at h
  | cons x rest ih =>
    intro h
    cases x with
    | none => rfl
    | some c =>
      rw [find_free_slot, List.getD_cons_succ]
      rw [find_free_slot, List.length_cons] at h
      exact ih (Nat.lt_of_succ_lt_succ h)

theorem find_free_slot_eq : ∀ (l : List (Option obhk_cb_record)) (k : Nat),
    k ≤ l.length →
    (∀ i < l.length, ((l.getD i none).isSome = true ↔ i < k)) →
    find_free_slot l = k := by
  intro l
  induction l with
  | nil =>
    intro k hk _
    simp at hk
    rw [find_free_slot]
    omega
  | cons x rest ih =>
    intro k hk H
    cases k with
    | zero =>
      have h0 := H 0 (by simp)
      cases x with
      | none => rfl
      | some c => simp at h0
    | succ k2 =>
      have h0 := H 0 (by simp)
      cases x with
      | none => simp at h0
      | some c =>
        rw [find_free_slot]
        have hrest : find_free_slot rest = k2 := by
          apply ih k2 (by simpa using hk)
          intro i hi
          have hi2 := H (i + 1) (by simpa using Nat.succ_lt_succ hi)
          rw [List.getD_cons_succ] at hi2
          exact hi2.trans Nat.succ_lt_succ_iff
        rw [hrest]

/-! The descriptor-slot invariant predicate. -/

theorem slots_ok_getD : ∀ (l : List (Option obhk_cb_record)) (i j : Nat)
    (cb : obhk_cb_record), slots_ok i l = true → l.getD j none = some cb →
    cb.uid = i + j := by
  intro l
  induction l with
  | nil => intro i j cb _ hg; simp [List.getD] at hg
  | cons x rest ih =>
    intro i j cb hs hg
    cases x with
    | none =>
      rw [slots_ok] at hs
      cases j with
      | zero => simp at hg
      | succ j2 =>
        rw [List.getD_cons_succ] at hg
        have := ih (i + 1) j2 cb hs hg
        omega
    | some c =>
      rw [slots_ok, Bool.and_eq_true] at hs
      cases j with
      | zero =>
        rw [List.getD_cons_zero] at hg
        cases hg
        have h1 : cb.uid = i := by simpa using hs.1
        omega
      | succ j2 =>
        rw [List.getD_cons_succ] at hg
        have := ih (i + 1) j2 cb hs.2 hg
        omega

theorem slots_ok_set_none : ∀ (l : List (Option obhk_cb_record)) (i j : Nat),
    slots_ok i l = true → slots_ok i (l.set j none) = true := by
  intro l
  induction l with
  | nil => intro i j hs; exact hs
  | cons x rest ih =>
    intro i j hs
    cases j with
    | zero =>
      rw [List.set_cons_zero, slots_ok]
      cases x with
      | none => exact hs
      | some c =>
        rw [slots_ok, Bool.and_eq_true] at hs
        exact hs.2
    | succ j2 =>
      rw [List.set_cons_succ]
      cases x with
      | none => exact ih (i + 1) j2 hs
      | some c =>
        rw [slots_ok, Bool.and_eq_true] at hs ⊢
        exact ⟨hs.1, ih (i + 1) j2 hs.2⟩

theorem slots_ok_set_some : ∀ (l : List (Option obhk_cb_record)) (i j : Nat)
    (c : obhk_cb_record), slots_ok i l = true → c.uid = i + j →
    slots_ok i (l.set j (some c)) = true := by
  intro l
  induction l with
  | nil => intro i j c hs _; exact hs
  | cons x rest ih =>
    intro i j c hs hc
    cases j with
    | zero =>
      rw [List.set_cons_zero, slots_ok, Bool.and_eq_true]
      refine ⟨by simp; omega, ?_⟩
      cases x with
      | none => exact hs
      | some c2 =>
        rw [slots_ok, Bool.and_eq_true] at hs
        exact hs.2
    | succ j2 =>
      rw [List.set_cons_succ]
      cases x with
      | none =>
        rw [slots_ok]
        exact ih (i + 1) j2 c hs (by omega)
      | some c2 =>
        rw [slots_ok, Bool.and_eq_true] at hs ⊢
        exact ⟨hs.1, ih (i + 1) j2 c hs.2 (by omega)⟩

/-! The `HASH_FIND` scans. -/

theorem find_by_cr3_cons {heap : List (NodeId × obhk_ht_record)} {hd : NodeId}
    {rest : List NodeId} {cr3 : Nat} {n : obhk_ht_record}
    (hn : heap_get heap hd = some n) :
    find_by_cr3 heap (hd :: rest) cr3 =
      if n.cr3 = cr3 then some (some hd) else find_by_cr3 heap rest cr3 := by
  rw [find_by_cr3, hn]

theorem find_by_cr3_cons_dangling {heap : List (NodeId × obhk_ht_record)}
    {hd : NodeId} {rest : List NodeId} {cr3 : Nat}
    (hn : heap_get heap hd = none) :
    find_by_cr3 heap (hd :: rest) cr3 = none := by
  rw [find_by_cr3, hn]

theorem find_by_addr_cons {heap : List (NodeId × obhk_ht_record)} {hd : NodeId}
    {rest : List NodeId} {addr : Nat} {n : obhk_ht_record}
    (hn : heap_get heap hd = some n) :
    find_by_addr heap (hd :: rest) addr =
      if n.addr = addr then some (some hd) else find_by_addr heap rest addr := by
  rw [find_by_addr, hn]

theorem find_by_addr_cons_dangling {heap : List (NodeId × obhk_ht_record)}
    {hd : NodeId} {rest : List NodeId} {addr : Nat}
    (hn : heap_get heap hd = none) :
    find_by_addr heap (hd :: rest) addr = none := by
  rw [find_by_addr, hn]

theorem find_by_cr3_ne_none {heap : List (NodeId × obhk_ht_record)}
    {tbl : List NodeId} {cr3 : Nat}
    (H : ∀ id ∈ tbl, (heap_get heap id).isSome = true) :
    find_by_cr3 heap tbl cr3 ≠ none := by
  induction tbl with
  | nil => simp [find_by_cr3]
  | cons hd rest ih =>
    have hs := H hd (List.mem_cons_self _ _)
    obtain ⟨n, hn⟩ := Option.isSome_iff_exists.mp hs
    rw [find_by_cr3_cons hn]
    by_cases hc : n.cr3 = cr3
    · rw [if_pos hc]
      simp
    · rw [if_neg hc]
      exact ih (fun id hid => H id (List.mem_cons_of_mem _ hid))

theorem find_by_cr3_found {heap : List (NodeId × obhk_ht_record)}
    {tbl : List NodeId} {cr3 : Nat} {id : NodeId}
    (h : find_by_cr3 heap tbl cr3 = some (some id)) :
    ∃ n, heap_get heap id = some n := by
  induction tbl with
  | nil => simp [find_by_cr3] at h
  | cons hd rest ih =>
    cases hn : heap_get heap hd with
    | none => rw [find_by_cr3_cons_dangling hn] at h; exact Option.noConfusion h
    | some n =>
      rw [find_by_cr3_cons hn] at h
      by_cases hc : n.cr3 = cr3
      · rw [if_pos hc] at h
        simp only [Option.some.injEq] at h
        cases h
        exact ⟨n, hn⟩
      · rw [if_neg hc] at h
        exact ih h

theorem find_by_addr_ne_none {heap : List (NodeId × obhk_ht_record)}
    {tbl : List NodeId} {addr : Nat}
    (H : ∀ id ∈ tbl, (heap_get heap id).isSome = true) :
    find_by_addr heap tbl addr ≠ none := by
  induction tbl with
  | nil => simp [find_by_addr]
  | cons hd rest ih =>
    have hs := H hd (List.mem_cons_self _ _)
    obtain ⟨n, hn⟩ := Option.isSome_iff_exists.mp hs
    rw [find_by_addr_cons hn]
    by_cases hc : n.addr = addr
    · rw [if_pos hc]
      simp
    · rw [if_neg hc]
      exact ih (fun id hid => H id (List.mem_cons_of_mem _ hid))

theorem find_by_addr_found {heap : List (NodeId × obhk_ht_record)}
    {tbl : List NodeId} {addr : Nat} {id : NodeId}
    (h : find_by_addr heap tbl addr = some (some id)) :
    ∃ n, heap_get heap id = some n := by
  induction tbl with
  | nil => simp [find_by_addr] at h
  | cons hd rest ih =>
    cases hn : heap_get heap hd with
    | none => rw [find_by_addr_cons_dangling hn] at h; exact Option.noConfusion h
    | some n =>
      rw [find_by_addr_cons hn] at h
      by_cases hc : n.addr = addr
      · rw [if_pos hc] at h
        simp only [Option.some.injEq] at h
        cases h
        exact ⟨n, hn⟩
      · rw [if_neg hc] at h
        exact ih h

/-! Characterisation of the find-or-create steps of `add_obhk_internal`. -/

theorem find_or_create_scope_ok {st : obhook_state} {allocs : List Bool}
    {cr3 : Nat} {st1 : obhook_state} {htId : NodeId} {allocs1 : List Bool}
    (h : find_or_create_scope st allocs cr3 = some (.ok (st1, htId, allocs1))) :
    st1.index_tbl = st.index_tbl ∧
    st1.obhook_pending_hooks = st.obhook_pending_hooks ∧
    st1.obhook_errno = st.obhook_errno := by
  unfold find_or_create_scope at h
  split at h
  · exact Option.noConfusion h
  · simp only [Option.some.injEq, Except.ok.injEq, Prod.mk.injEq] at h
    obtain ⟨h1, -, -⟩ := h
    subst h1
    exact ⟨rfl, rfl, rfl⟩
  · split at h
    · simp at h
    · simp only [Option.some.injEq, Except.ok.injEq, Prod.mk.injEq] at h
      obtain ⟨h1, -, -⟩ := h
      subst h1
      exact ⟨rfl, rfl, rfl⟩

theorem find_or_create_scope_error {st : obhook_state} {allocs : List Bool}
    {cr3 : Nat} {e : OBHOOK_ERRNO}
    (h : find_or_create_scope st allocs cr3 = some (.error e)) :
    e = .OBHOOK_ERR_FAIL := by
  unfold find_or_create_scope at h
  split at h
  · exact Option.noConfusion h
  · simp at h
  · split at h
    · simp only [Option.some.injEq, Except.error.injEq] at h
      exact h.symm
    · simp at h

theorem find_or_create_site_ok {st : obhook_state} {allocs : List Bool}
    {htId : NodeId} {cr3 addr : Nat} {st2 : obhook_state} {pId : NodeId}
    {allocs2 : List Bool}
    (h : find_or_create_site st allocs htId cr3 addr = some (.ok (st2, pId, allocs2))) :
    st2.index_tbl = st.index_tbl ∧
    st2.obhook_pending_hooks = st.obhook_pending_hooks ∧
    st2.obhook_errno = st.obhook_errno := by
  unfold find_or_create_site at h
  split at h
  · exact Option.noConfusion h
  · split at h
    · exact Option.noConfusion h
    · simp only [Option.some.injEq, Except.ok.injEq, Prod.mk.injEq] at h
      obtain ⟨h1, -, -⟩ := h
      subst h1
      exact ⟨rfl, rfl, rfl⟩
    · split at h
      · simp at h
      · simp only [Option.some.injEq, Except.ok.injEq, Prod.mk.injEq] at h
        obtain ⟨h1, -, -⟩ := h
        subst h1
        exact ⟨rfl, rfl, rfl⟩

theorem find_or_create_site_error {st : obhook_state} {allocs : List Bool}
    {htId : NodeId} {cr3 addr : Nat} {e : OBHOOK_ERRNO}
    (h : find_or_create_site st allocs htId cr3 addr = some (.error e)) :
    e = .OBHOOK_ERR_FAIL := by
  unfold find_or_create_site at h
  split at h
  · exact Option.noConfusion h
  · split at h
    · exact Option.noConfusion h
    · simp at h
    · split at h
      · simp only [Option.some.injEq, Except.error.injEq] at h
        exact h.symm
      · simp at h

theorem install_cb_some {st : obhook_state} {pId : NodeId} {u : Nat}
    {lab : String} {f : Nat} {st3 : obhook_state} {r : Int}
    (h : install_cb st pId u (some lab) f = some (st3, r)) :
    r = ((u % 65536 : Nat) : Int) ∧
    st3.obhook_pending_hooks = true ∧
    st3.obhook_errno = st.obhook_errno ∧
    ∃ c : obhk_cb_record, c.uid = u % 65536 ∧ c.enabled = true ∧ c.cb_func = f ∧
      st3.index_tbl = st.index_tbl.set (u % 65536) (some c) := by
  unfold install_cb at h
  split at h
  · exact Option.noConfusion h
  · split at h
    · exact Option.noConfusion h
    · simp only [Option.some.injEq, Prod.mk.injEq] at h
      obtain ⟨h1, h2⟩ := h
      subst h1
      exact ⟨h2.symm, rfl, rfl, ⟨_, rfl, rfl, rfl, rfl⟩⟩

/-- Exhaustive outcome analysis of `add_obhk_internal`: every defined
outcome is either a failure, which returns `-1`, leaves the descriptor
table and pending flag alone and records one of the five error kinds (the
address error only for a universal hook at a non-kernel address), or a
success, which returns the first free descriptor, raises the pending flag,
and binds a fresh enabled record at that slot. -/
theorem add_obhk_internal_cases {st : obhook_state} {allocs : List Bool}
    {cr3 addr : Nat} {label : Option String} {cb : Option Nat}
    {out : obhook_state × Int}
    (h : add_obhk_internal st allocs cr3 addr label cb = some out) :
    (out.2 = -1 ∧
      out.1.index_tbl = st.index_tbl ∧
      out.1.obhook_pending_hooks = st.obhook_pending_hooks ∧
      ∃ e, out.1.obhook_errno = some e ∧
        (e = .OBHOOK_ERR_FULL_HOOK ∨
         (e = .OBHOOK_ERR_INVALID_ADDR ∧ cr3 = 0 ∧ is_kern_addr addr = false) ∨
         e = .OBHOOK_ERR_INVALID_LABEL ∨
         e = .OBHOOK_ERR_INVALID_CALLBACK ∨
         e = .OBHOOK_ERR_FAIL)) ∨
    (find_free_slot st.index_tbl ≠ MAX_NM_OBHOOK ∧
      out.2 = ((find_free_slot st.index_tbl % 65536 : Nat) : Int) ∧
      out.1.obhook_pending_hooks = true ∧
      out.1.obhook_errno = st.obhook_errno ∧
      ∃ c : obhk_cb_record, c.uid = find_free_slot st.index_tbl % 65536 ∧
        c.enabled = true ∧
        out.1.index_tbl =
          st.index_tbl.set (find_free_slot st.index_tbl % 65536) (some c)) := by
  unfold add_obhk_internal at h
  split at h
  · -- full registry
    left
    simp only [Option.some.injEq] at h
    subst h
    exact ⟨rfl, rfl, rfl, ⟨_, rfl, Or.inl rfl⟩⟩
  · rename_i h1
    split at h
    · -- universal hook outside kernel space
      rename_i h2
      left
      simp only [Option.some.injEq] at h
      subst h
      exact ⟨rfl, rfl, rfl, ⟨_, rfl, Or.inr (Or.inl ⟨rfl, h2.1, h2.2⟩)⟩⟩
    · split at h
      · -- label too long
        left
        simp only [Option.some.injEq] at h
        subst h
        exact ⟨rfl, rfl, rfl, ⟨_, rfl, Or.inr (Or.inr (Or.inl rfl))⟩⟩
      · split at h
        · -- null callback
          left
          simp only [Option.some.injEq] at h
          subst h
          exact ⟨rfl, rfl, rfl, ⟨_, rfl, Or.inr (Or.inr (Or.inr (Or.inl rfl)))⟩⟩
        · rename_i f
          split at h
          · exact Option.noConfusion h
          · -- scope calloc failed
            rename_i e heq_scope
            left
            simp only [Option.some.injEq] at h
            subst h
            refine ⟨rfl, rfl, rfl, ⟨e, rfl, ?_⟩⟩
            rw [find_or_create_scope_error heq_scope]
            exact Or.inr (Or.inr (Or.inr (Or.inr rfl)))
          · rename_i st1 htId allocs1 heq_scope
            obtain ⟨hidx1, hpend1, herr1⟩ := find_or_create_scope_ok heq_scope
            split at h
            · exact Option.noConfusion h
            · -- site calloc failed
              rename_i e heq_site
              left
              simp only [Option.some.injEq] at h
              subst h
              refine ⟨rfl, hidx1, hpend1, ⟨e, rfl, ?_⟩⟩
              rw [find_or_create_site_error heq_site]
              exact Or.inr (Or.inr (Or.inr (Or.inr rfl)))
            · rename_i st2 pId allocs2 heq_site
              obtain ⟨hidx2, hpend2, herr2⟩ := find_or_create_site_ok heq_site
              split at h
              · -- callback calloc failed
                left
                simp only [Option.some.injEq] at h
                subst h
                exact ⟨rfl, hidx2.trans hidx1, hpend2.trans hpend1,
                  ⟨_, rfl, Or.inr (Or.inr (Or.inr (Or.inr rfl)))⟩⟩
              · -- success
                right
                have hfind : find_free_slot st.index_tbl ≠ MAX_NM_OBHOOK ∧
                    (get_obhook_uid st).toNat = find_free_slot st.index_tbl := by
                  unfold get_obhook_uid at h1 ⊢
                  by_cases hf : find_free_slot st.index_tbl = MAX_NM_OBHOOK
                  · rw [if_pos hf] at h1
                    exact absurd rfl h1
                  · rw [if_neg hf]
                    exact ⟨hf, Int.toNat_natCast _⟩
                cases label with
                | none =>
                    rw [show install_cb st2 pId (get_obhook_uid st).toNat none f = none from rfl] at h
                    exact Option.noConfusion h
                | some lab =>
                    obtain ⟨hr, hpend, herr, c, hcuid, hcen, -, hcidx⟩ := install_cb_some h
                    rw [hfind.2] at hr hcuid hcidx
                    refine ⟨hfind.1, hr, hpend, herr.trans (herr2.trans herr1), ⟨c, hcuid, hcen, ?_⟩⟩
                    rw [hcidx, hidx2, hidx1]

/-- With every descriptor slot occupied, an Add reports `FullRegistry`
before any argument validation, leaving everything but `obhook_errno`
unchanged. -/
theorem add_when_full {st : obhook_state} {allocs : List Bool}
    {cr3 addr : Nat} {label : Option String} {cb : Option Nat}
    (hlen : st.index_tbl.length = MAX_NM_OBHOOK)
    (hfull : ∀ i < MAX_NM_OBHOOK, (st.index_tbl.getD i none).isSome = true) :
    add_obhk_internal st allocs cr3 addr label cb =
      some ({ st with obhook_errno := some .OBHOOK_ERR_FULL_HOOK }, -1) := by
  have hf : find_free_slot st.index_tbl = MAX_NM_OBHOOK := by
    apply find_free_slot_eq _ _ (Nat.le_of_eq hlen.symm)
    intro i hi
    rw [hlen] at hi
    exact ⟨fun _ => hi, fun _ => hfull i hi⟩
  have hg : get_obhook_uid st = -1 := by
    unfold get_obhook_uid
    rw [if_pos hf]
  unfold add_obhk_internal
  rw [if_pos hg]

/-- Outcome analysis of `toggle_obhk` on a defined call. -/
theorem toggle_obhk_cases {st : obhook_state} {d : Int} {e : Bool}
    {out : obhook_state × Int} (h : toggle_obhk st d e = some out) :
    (out.1 = { st with obhook_errno := some .OBHOOK_ERR_INVALID_DESCRIPTOR } ∧
      out.2 = -1) ∨
    (∃ cb, st.index_tbl.getD d.toNat none = some cb ∧
      out.1 = { st with
        index_tbl := st.index_tbl.set d.toNat (some { cb with enabled := e }) } ∧
      out.2 = 0) := by
  unfold toggle_obhk at h
  split at h
  · exact Option.noConfusion h
  · split at h
    · rename_i heq
      simp only [Option.some.injEq] at h
      subst h
      exact Or.inl ⟨rfl, rfl⟩
    · rename_i cb heq
      simp only [Option.some.injEq] at h
      subst h
      exact Or.inr ⟨cb, heq, rfl, rfl⟩

/-- Field analysis of `obhook_delete` on a defined call: the pending flag
is untouched and the descriptor table is either unchanged or has the slot
cleared. -/
theorem obhook_delete_fields {st : obhook_state} {d : Int}
    {out : obhook_state × Int} (h : obhook_delete st d = some out) :
    out.1.obhook_pending_hooks = st.obhook_pending_hooks ∧
    (out.1.index_tbl = st.index_tbl ∨
      out.1.index_tbl = st.index_tbl.set d.toNat none) := by
  unfold obhook_delete at h
  split at h
  · exact Option.noConfusion h
  · split at h
    · simp only [Option.some.injEq] at h
      subst h
      exact ⟨rfl, Or.inl rfl⟩
    · split at h
      · exact Option.noConfusion h
      · split at h
        · simp only [Option.some.injEq] at h
          subst h
          exact ⟨rfl, Or.inr rfl⟩
        · simp only [Option.some.injEq] at h
          subst h
          exact ⟨rfl, Or.inr rfl⟩

/-- `obhook_list` never changes the registry state. -/
theorem obhook_list_state {st : obhook_state} {out : obhook_state × List list_event × Int}
    (h : obhook_list st = some out) : out.1 = st := by
  unfold obhook_list at h
  split at h
  · exact Option.noConfusion h
  · simp only [Option.some.injEq] at h
    subst h
    rfl

/-- C6: every successful Add sets `obhook_pending_hooks` to `true`, and no
other defined registry operation — Enable, Disable, Delete, List, or a
failed Add — ever changes the flag. -/
theorem obhook_pending_flag_contract :
    (∀ st allocs cr3 addr label cb out,
        add_obhk_internal st allocs cr3 addr label cb = some out →
          (out.2 ≠ -1 → out.1.obhook_pending_hooks = true) ∧
          (out.2 = -1 → out.1.obhook_pending_hooks = st.obhook_pending_hooks)) ∧
    (∀ st d out, obhook_enable st d = some out →
        out.1.obhook_pending_hooks = st.obhook_pending_hooks) ∧
    (∀ st d out, obhook_disable st d = some out →
        out.1.obhook_pending_hooks = st.obhook_pending_hooks) ∧
    (∀ st d out, obhook_delete st d = some out →
        out.1.obhook_pending_hooks = st.obhook_pending_hooks) ∧
    (∀ st out, obhook_list st = some out →
        out.1.obhook_pending_hooks = st.obhook_pending_hooks) := by
  refine ⟨?_, ?_, ?_, ?_, ?_⟩
  · intro st allocs cr3 addr label cb out h
    rcases add_obhk_internal_cases h with
      ⟨hm1, -, hpend, -⟩ | ⟨-, hr, hpend, -⟩
    · exact ⟨fun hne => absurd hm1 hne, fun _ => hpend⟩
    · refine ⟨fun _ => hpend, fun hm1 => ?_⟩
      rw [hr] at hm1
      omega
  · intro st d out h
    rcases toggle_obhk_cases h with ⟨h1, -⟩ | ⟨cb, -, h1, -⟩ <;> rw [h1]
  · intro st d out h
    rcases toggle_obhk_cases h with ⟨h1, -⟩ | ⟨cb, -, h1, -⟩ <;> rw [h1]
  · intro st d out h
    exact (obhook_delete_fields h).1
  · intro st out h
    rw [obhook_list_state h]

/-- C6 witness: the first Add on the initial registry succeeds and leaves
the pending flag raised. -/
theorem obhook_pending_flag_contract_witness :
    ((add_obhk_internal obhk_init [] 3 16 (some "a") (some 7)).get
        (by decide)).1.obhook_pending_hooks = true := by
  have h := obhook_pending_flag_contract.1 obhk_init [] 3 16 (some "a") (some 7)
    ((add_obhk_internal obhk_init [] 3 16 (some "a") (some 7)).get (by decide))
    (Option.some_get (by decide)).symm
  exact h.1 (by decide)

/-- The capacity of the descriptor table fits the `uint16_t` uid field. -/
theorem MAX_NM_OBHOOK_le : MAX_NM_OBHOOK ≤ 65536 := by
  norm_num [MAX_NM_OBHOOK]

/-- C7: the descriptor-table invariant — slot `i` is empty or holds the
callback with uid `i` — holds initially and is preserved by every defined
operation; a successful Add returns a descriptor inside
`[0, MAX_NM_OBHOOK)` whose slot was previously empty (so the descriptor is
unique among live callbacks) and now holds the new callback. -/
theorem obhook_descriptor_table_invariant :
    slot_inv obhk_init ∧
    (∀ st allocs cr3 addr label cb out, slot_inv st →
        add_obhk_internal st allocs cr3 addr label cb = some out →
          slot_inv out.1 ∧
          (out.2 ≠ -1 → ∃ r : Nat, out.2 = (r : Int) ∧ r < MAX_NM_OBHOOK ∧
            st.index_tbl.getD r none = none ∧
            ∃ c, out.1.index_tbl.getD r none = some c ∧ c.uid = r)) ∧
    (∀ st d e out, slot_inv st → toggle_obhk st d e = some out → slot_inv out.1) ∧
    (∀ st d out, slot_inv st → obhook_delete st d = some out → slot_inv out.1) ∧
    (∀ st out, slot_inv st → obhook_list st = some out → slot_inv out.1) := by
  refine ⟨⟨by decide, by decide⟩, ?_, ?_, ?_, ?_⟩
  · intro st allocs cr3 addr label cb out hinv h
    obtain ⟨hlen, hok⟩ := hinv
    rcases add_obhk_internal_cases h with
      ⟨hm1, hidx, -, -⟩ | ⟨hne, hr, -, -, c, hcuid, -, hcidx⟩
    · exact ⟨⟨by rw [hidx]; exact hlen, by rw [hidx]; exact hok⟩,
        fun hne => absurd hm1 hne⟩
    · have hu : find_free_slot st.index_tbl < MAX_NM_OBHOOK :=
        Nat.lt_of_le_of_ne (hlen ▸ find_free_slot_le_length st.index_tbl) hne
      have hmod : find_free_slot st.index_tbl % 65536 = find_free_slot st.index_tbl :=
        Nat.mod_eq_of_lt (Nat.lt_of_lt_of_le hu MAX_NM_OBHOOK_le)
      rw [hmod] at hr hcuid hcidx
      refine ⟨⟨by rw [hcidx, List.length_set]; exact hlen, ?_⟩, fun _ => ?_⟩
      · rw [hcidx]
        exact slots_ok_set_some _ 0 _ c hok (by omega)
      · refine ⟨find_free_slot st.index_tbl, hr, hu, ?_, ⟨c, ?_, hcuid⟩⟩
        · exact find_free_slot_spec _ (hlen ▸ hu)
        · rw [hcidx]
          exact getD_set_self _ _ _ _ (hlen ▸ hu)
  · intro st d e out hinv h
    obtain ⟨hlen, hok⟩ := hinv
    rcases toggle_obhk_cases h with ⟨h1, -⟩ | ⟨cb, hcb, h1, -⟩
    · rw [h1]
      exact ⟨hlen, hok⟩
    · rw [h1]
      refine ⟨by rw [List.length_set]; exact hlen, ?_⟩
      have := slots_ok_getD st.index_tbl 0 d.toNat cb hok hcb
      exact slots_ok_set_some _ 0 _ _ hok (by simpa using this)
  · intro st d out hinv h
    obtain ⟨hlen, hok⟩ := hinv
    rcases (obhook_delete_fields h).2 with h1 | h1
    · exact ⟨by rw [h1]; exact hlen, by rw [h1]; exact hok⟩
    · exact ⟨by rw [h1, List.length_set]; exact hlen,
        by rw [h1]; exact slots_ok_set_none _ 0 _ hok⟩
  · intro st out hinv h
    rw [obhook_list_state h]
    exact hinv

/-- C7 witness: the invariant holds after the first Add on the initial
registry. -/
theorem obhook_descriptor_table_invariant_witness :
    slot_inv ((add_obhk_internal obhk_init [] 3 16 (some "a") (some 7)).get
        (by decide)).1 := by
  have h := obhook_descriptor_table_invariant.2.1 obhk_init [] 3 16 (some "a") (some 7)
    ((add_obhk_internal obhk_init [] 3 16 (some "a") (some 7)).get (by decide))
    ⟨by decide, by decide⟩ (Option.some_get (by decide)).symm
  exact h.1

/-- C9 (amended): with a free descriptor slot, AddUniversalHook fails with
`InvalidAddress` exactly when the address mask check fails; when the mask
check passes, no defined universal Add can fail with `InvalidAddress`; and
AddProcessHook with `cr3 ≠ 0` performs no address-range check: it never
fails with `InvalidAddress` for any address. -/
theorem obhook_invalid_addr_characterisation :
    (∀ st allocs addr label cb, get_obhook_uid st ≠ -1 → is_kern_addr addr = false →
      obhook_add_universal st allocs addr label cb =
        some ({ st with obhook_errno := some .OBHOOK_ERR_INVALID_ADDR }, -1)) ∧
    (∀ st allocs addr label cb out, is_kern_addr addr = true →
      obhook_add_universal st allocs addr label cb = some out →
      ¬(out.2 = -1 ∧ out.1.obhook_errno = some .OBHOOK_ERR_INVALID_ADDR)) ∧
    (∀ st allocs cr3 addr label cb out, cr3 ≠ 0 →
      obhook_add_process st allocs cr3 addr label cb = some out →
      ¬(out.2 = -1 ∧ out.1.obhook_errno = some .OBHOOK_ERR_INVALID_ADDR)) := by
  refine ⟨?_, ?_, ?_⟩
  · intro st allocs addr label cb h1 h2
    unfold obhook_add_universal add_obhk_internal
    rw [if_neg h1, if_pos ⟨rfl, h2⟩]
  · intro st allocs addr label cb out hk h hc
    obtain ⟨hm, herr⟩ := hc
    rcases add_obhk_internal_cases h with
      ⟨-, -, -, e, he, hdisj⟩ | ⟨-, hr, -, -, -⟩
    · have he2 : e = .OBHOOK_ERR_INVALID_ADDR := by
        rw [he] at herr
        exact Option.some.inj herr
      subst he2
      rcases hdisj with h' | ⟨-, -, h'⟩ | h' | h' | h' <;>
        first
          | exact OBHOOK_ERRNO.noConfusion h'
          | (rw [hk] at h'; exact Bool.noConfusion h')
    · rw [hr] at hm
      omega
  · intro st allocs cr3 addr label cb out hcr3 h hc
    obtain ⟨hm, herr⟩ := hc
    rcases add_obhk_internal_cases h with
      ⟨-, -, -, e, he, hdisj⟩ | ⟨-, hr, -, -, -⟩
    · have he2 : e = .OBHOOK_ERR_INVALID_ADDR := by
        rw [he] at herr
        exact Option.some.inj herr
      subst he2
      rcases hdisj with h' | ⟨-, h', -⟩ | h' | h' | h' <;>
        first
          | exact OBHOOK_ERRNO.noConfusion h'
          | exact absurd h' hcr3
    · rw [hr] at hm
      omega

/-- C9 witness: on the fresh registry, a universal hook at user address
`0x1000` fails with `InvalidAddress`. -/
theorem obhook_invalid_addr_characterisation_witness :
    obhook_add_universal obhk_init [] 4096 (some "x") (some 1) =
      some ({ obhk_init with obhook_errno := some .OBHOOK_ERR_INVALID_ADDR }, -1) :=
  obhook_invalid_addr_characterisation.1 obhk_init [] 4096 (some "x") (some 1)
    (by decide) (by decide)

/-- C10: when every descriptor slot is occupied, any Add — with any
address, label, or callback argument, valid or not — fails with
`FullRegistry`: the capacity check precedes all argument validation. -/
theorem obhook_full_check_precedes_validation :
    ∀ st allocs cr3 addr label cb, st.index_tbl.length = MAX_NM_OBHOOK →
      (∀ i < MAX_NM_OBHOOK, (st.index_tbl.getD i none).isSome = true) →
      add_obhk_internal st allocs cr3 addr label cb =
        some ({ st with obhook_errno := some .OBHOOK_ERR_FULL_HOOK }, -1) :=
  fun _ _ _ _ _ _ hlen hfull => add_when_full hlen hfull

/-- C10 witness: a full registry rejects even an Add with a null callback
with `FullRegistry` rather than `InvalidCallback`. -/
theorem obhook_full_check_precedes_validation_witness :
    add_obhk_internal full_registry_example [] 3 16 (some "x") none =
      some ({ full_registry_example with
                obhook_errno := some .OBHOOK_ERR_FULL_HOOK }, -1) :=
  obhook_full_check_precedes_validation full_registry_example [] 3 16 (some "x") none
    (by decide) (by decide)

/-- On a well-formed registry, the first step of an Add (find or create the
`cr3` scope node) always succeeds when every allocation succeeds, preserves
well-formedness and the descriptor table, and yields a live node. -/
theorem find_or_create_scope_total {st : obhook_state} {cr3 : Nat} (hwf : st_wf st) :
    ∃ st1 htId, find_or_create_scope st [] cr3 = some (.ok (st1, htId, [])) ∧
      st_wf st1 ∧ (heap_get st1.node_heap htId).isSome = true ∧
      st1.index_tbl = st.index_tbl := by
  obtain ⟨hfresh, htbl, hchild⟩ := hwf
  cases heq : find_by_cr3 st.node_heap st.hook_tbl cr3 with
  | none => exact absurd heq (find_by_cr3_ne_none htbl)
  | some r =>
    cases r with
    | some id =>
      refine ⟨st, id, ?_, ⟨hfresh, htbl, hchild⟩, ?_, rfl⟩
      · unfold find_or_create_scope
        rw [heq]
      · obtain ⟨n, hn⟩ := find_by_cr3_found heq
        rw [hn]
        rfl
    | none =>
      refine ⟨{ st with
          node_heap := st.node_heap ++
            [(st.next_node, { addr := 0, cr3 := cr3, proc_obhk_tbl := [], cb_list := [] })]
          next_node := st.next_node + 1
          hook_tbl := st.hook_tbl ++ [st.next_node] },
        st.next_node, ?_, ⟨?_, ?_, ?_⟩, ?_, rfl⟩
      · unfold find_or_create_scope
        rw [heq]
        rfl
      · intro p hp
        rcases List.mem_append.mp hp with h1 | h1
        · exact Nat.lt_succ_of_lt (hfresh p h1)
        · rw [List.mem_singleton] at h1
          rw [h1]
          exact Nat.lt_succ_self _
      · intro id hid
        rcases List.mem_append.mp hid with h1 | h1
        · exact heap_get_append_isSome (htbl id h1)
        · rw [List.mem_singleton] at h1
          subst h1
          rw [heap_get_append_fresh (fun p hp => Nat.ne_of_lt (hfresh p hp))]
          rfl
      · intro p hp pid hpid
        rcases List.mem_append.mp hp with h1 | h1
        · exact heap_get_append_isSome (hchild p h1 pid hpid)
        · rw [List.mem_singleton] at h1
          rw [h1] at hpid
          exact absurd hpid (List.not_mem_nil _)
      · rw [heap_get_append_fresh (fun p hp => Nat.ne_of_lt (hfresh p hp))]
        rfl

/-- Unfolding of `find_or_create_site` on a live scope node. -/
theorem find_or_create_site_eq {st : obhook_state} {allocs : List Bool}
    {htId : NodeId} {cr3 addr : Nat} {htn : obhk_ht_record}
    (hht : heap_get st.node_heap htId = some htn) :
    find_or_create_site st allocs htId cr3 addr =
      match find_by_addr st.node_heap htn.proc_obhk_tbl addr with
      | none => none
      | some (some pid) => some (.ok (st, pid, allocs))
      | some none =>
          if allocs.headD true = false then some (.error .OBHOOK_ERR_FAIL)
          else
            some (.ok
              ({ st with
                  node_heap :=
                    heap_set
                      (st.node_heap ++
                        [(st.next_node,
                          { addr := addr, cr3 := cr3, proc_obhk_tbl := [], cb_list := [] })])
                      htId
                      { htn with proc_obhk_tbl := htn.proc_obhk_tbl ++ [st.next_node] }
                  next_node := st.next_node + 1 },
                st.next_node, allocs.tail)) := by
  unfold find_or_create_site
  rw [hht]

/-- On a well-formed registry, the second step of an Add (find or create
the per-address site node inside a live scope node) succeeds when every
allocation succeeds, preserves well-formedness and the descriptor table,
and yields a live node. -/
theorem find_or_create_site_total {st : obhook_state} {htId : NodeId}
    {cr3 addr : Nat} {htn : obhk_ht_record} (hwf : st_wf st)
    (hht : heap_get st.node_heap htId = some htn) :
    ∃ st2 pId, find_or_create_site st [] htId cr3 addr = some (.ok (st2, pId, [])) ∧
      st_wf st2 ∧ (heap_get st2.node_heap pId).isSome = true ∧
      st2.index_tbl = st.index_tbl := by
  obtain ⟨hfresh, htbl, hchild⟩ := hwf
  have hchildren : ∀ pid ∈ htn.proc_obhk_tbl, (heap_get st.node_heap pid).isSome = true :=
    hchild (htId, htn) (heap_get_mem hht)
  cases heq : find_by_addr st.node_heap htn.proc_obhk_tbl addr with
  | none => exact absurd heq (find_by_addr_ne_none hchildren)
  | some r =>
    cases r with
    | some pid =>
      refine ⟨st, pid, ?_, ⟨hfresh, htbl, hchild⟩, ?_, rfl⟩
      · rw [find_or_create_site_eq hht, heq]
      · obtain ⟨n, hn⟩ := find_by_addr_found heq
        rw [hn]
        rfl
    | none =>
      have hhtlt : htId < st.next_node := hfresh (htId, htn) (heap_get_mem hht)
      have hne : st.next_node ≠ htId := fun hc => absurd hc.symm (Nat.ne_of_lt hhtlt)
      refine ⟨{ st with
          node_heap :=
            heap_set
              (st.node_heap ++
                [(st.next_node,
                  { addr := addr, cr3 := cr3, proc_obhk_tbl := [], cb_list := [] })])
              htId { htn with proc_obhk_tbl := htn.proc_obhk_tbl ++ [st.next_node] }
          next_node := st.next_node + 1 },
        st.next_node, ?_, ⟨?_, ?_, ?_⟩, ?_, rfl⟩
      · rw [find_or_create_site_eq hht, heq]
        rfl
      · intro p hp
        rcases mem_heap_set hp with h1 | h1
        · rw [h1]
          exact Nat.lt_succ_of_lt hhtlt
        · rcases List.mem_append.mp h1 with h2 | h2
          · exact Nat.lt_succ_of_lt (hfresh p h2)
          · rw [List.mem_singleton] at h2
            rw [h2]
            exact Nat.lt_succ_self _
      · intro id hid
        exact heap_get_set_isSome (heap_get_append_isSome (htbl id hid))
      · intro p hp pid2 hpid2
        rcases mem_heap_set hp with h1 | h1
        · rw [h1] at hpid2
          rcases List.mem_append.mp hpid2 with h2 | h2
          · exact heap_get_set_isSome (heap_get_append_isSome (hchildren pid2 h2))
          · rw [List.mem_singleton] at h2
            subst h2
            rw [heap_get_set_other hne,
              heap_get_append_fresh (fun q hq => Nat.ne_of_lt (hfresh q hq))]
            rfl
        · rcases List.mem_append.mp h1 with h2 | h2
          · exact heap_get_set_isSome (heap_get_append_isSome (hchild p h2 pid2 hpid2))
          · rw [List.mem_singleton] at h2
            rw [h2] at hpid2
            exact absurd hpid2 (List.not_mem_nil _)
      · rw [heap_get_set_other hne,
          heap_get_append_fresh (fun q hq => Nat.ne_of_lt (hfresh q hq))]
        rfl

/-- On a well-formed registry, installing the callback record into a live
site succeeds, preserves well-formedness, and binds the uid in the
descriptor table. -/
theorem install_cb_total {st : obhook_state} {pId : NodeId} {u : Nat} {lab : String}
    {f : Nat} {pnode : obhk_ht_record} (hwf : st_wf st)
    (hp : heap_get st.node_heap pId = some pnode) :
    ∃ st3, install_cb st pId u (some lab) f = some (st3, ((u % 65536 : Nat) : Int)) ∧
      st_wf st3 ∧
      st3.index_tbl = st.index_tbl.set (u % 65536)
        (some { ht_rec := pId, uid := u % 65536, enabled := true,
                universal := pnode.cr3 == 0, label := lab, cb_func := f }) := by
  obtain ⟨hfresh, htbl, hchild⟩ := hwf
  have hplt : pId < st.next_node := hfresh (pId, pnode) (heap_get_mem hp)
  refine ⟨{ st with
      node_heap := heap_set st.node_heap pId
        { pnode with cb_list := pnode.cb_list ++ [u % 65536] }
      index_tbl := st.index_tbl.set (u % 65536)
        (some { ht_rec := pId, uid := u % 65536, enabled := true,
                universal := pnode.cr3 == 0, label := lab, cb_func := f })
      obhook_pending_hooks := true }, ?_, ⟨?_, ?_, ?_⟩, rfl⟩
  · unfold install_cb
    rw [hp]
  · intro p hpmem
    rcases mem_heap_set hpmem with h1 | h1
    · rw [h1]
      exact hplt
    · exact hfresh p h1
  · intro id hid
    exact heap_get_set_isSome (htbl id hid)
  · intro p hpmem pid2 hpid2
    rcases mem_heap_set hpmem with h1 | h1
    · rw [h1] at hpid2
      exact heap_get_set_isSome (hchild (pId, pnode) (heap_get_mem hp) pid2 hpid2)
    · exact heap_get_set_isSome (hchild p h1 pid2 hpid2)

/-- On a well-formed registry whose first `k < MAX_NM_OBHOOK` descriptor
slots are the occupied ones, a valid Add with every allocation succeeding
returns descriptor `k` and fills exactly the first `k + 1` slots. -/
theorem add_succeeds_at {st : obhook_state} {k cr3 addr : Nat} {lab : String} {f : Nat}
    (hwf : st_wf st) (hfill : filled_upto st k) (hk : k < MAX_NM_OBHOOK)
    (hkern : cr3 = 0 → is_kern_addr addr = true)
    (hlab : lab.length < MAX_SZ_OBHOOK_LABEL) :
    ∃ st3, add_obhk_internal st [] cr3 addr (some lab) (some f) =
        some (st3, Int.ofNat k) ∧
      st_wf st3 ∧ filled_upto st3 (k + 1) := by
  obtain ⟨hlen, hslots⟩ := hfill
  have hfind : find_free_slot st.index_tbl = k := by
    apply find_free_slot_eq _ _ (by rw [hlen]; omega)
    intro i hi
    rw [hlen] at hi
    exact hslots i hi
  have hguid : get_obhook_uid st = (k : Int) := by
    unfold get_obhook_uid
    rw [hfind, if_neg (by omega)]
  have htons : (get_obhook_uid st).toNat = k := by
    rw [hguid]
    exact Int.toNat_natCast k
  have hk65 : k % 65536 = k :=
    Nat.mod_eq_of_lt (Nat.lt_of_lt_of_le hk MAX_NM_OBHOOK_le)
  obtain ⟨st1, htId, heq1, hwf1, hht1, hidx1⟩ := @find_or_create_scope_total st cr3 hwf
  obtain ⟨htn, hhtn⟩ := Option.isSome_iff_exists.mp hht1
  obtain ⟨st2, pId, heq2, hwf2, hp2, hidx2⟩ :=
    @find_or_create_site_total st1 htId cr3 addr htn hwf1 hhtn
  obtain ⟨pnode, hpnode⟩ := Option.isSome_iff_exists.mp hp2
  obtain ⟨st3, heq3, hwf3, hidx3⟩ :=
    @install_cb_total st2 pId (get_obhook_uid st).toNat lab f pnode hwf2 hpnode
  rw [htons, hk65] at heq3 hidx3
  rw [hidx2, hidx1] at hidx3
  refine ⟨st3, ?_, hwf3, ?_, ?_⟩
  · have hcond2 : ¬(cr3 = 0 ∧ is_kern_addr addr = false) := by
      rintro ⟨hc0, hkf⟩
      rw [hkern hc0] at hkf
      exact Bool.noConfusion hkf
    have hcond3 : ¬(label_too_long (some lab) = true) := by
      simp only [label_too_long, decide_eq_true_eq]
      omega
    unfold add_obhk_internal
    rw [hguid, if_neg (show ¬((k : Int) = -1) by omega), if_neg hcond2, if_neg hcond3]
    simp only [heq1, heq2]
    rw [if_neg (show ¬(([] : List Bool).headD true = false) by decide),
      Int.toNat_natCast]
    exact heq3
  · rw [hidx3, List.length_set]
    exact hlen
  · intro i hi
    by_cases hik : i = k
    · subst hik
      rw [hidx3, getD_set_self _ _ _ _ (by rw [hlen]; exact hk)]
      exact ⟨fun _ => Nat.lt_succ_self _, fun _ => rfl⟩
    · rw [hidx3, getD_set_other _ _ _ _ _ (fun hc => hik hc.symm)]
      have hiff := hslots i hi
      constructor
      · intro hs
        exact Nat.lt_succ_of_lt (hiff.mp hs)
      · intro hlt
        apply hiff.mpr
        omega

/-- Running a list of valid Adds from a well-formed registry whose first
`k` slots are occupied succeeds as long as capacity is not exceeded, and
hands out exactly the consecutive descriptors `k, k+1, …`. -/
theorem run_adds_spec : ∀ (args : List (Nat × Nat × String × Nat)) (st : obhook_state)
    (k : Nat), st_wf st → filled_upto st k → (∀ a ∈ args, valid_args a) →
    k + args.length ≤ MAX_NM_OBHOOK →
    ∃ st2, run_adds st args =
        some (st2, (List.range' k args.length).map Int.ofNat) ∧
      st_wf st2 ∧ filled_upto st2 (k + args.length) := by
  intro args
  induction args with
  | nil =>
    intro st k hwf hfill _ _
    exact ⟨st, rfl, hwf, hfill⟩
  | cons a rest ih =>
    intro st k hwf hfill hval hle
    obtain ⟨hkern, hlab⟩ := hval a (List.mem_cons_self _ _)
    have hk : k < MAX_NM_OBHOOK := by
      rw [List.length_cons] at hle
      omega
    obtain ⟨st3, heqadd, hwf3, hfill3⟩ := add_succeeds_at hwf hfill hk hkern hlab
    obtain ⟨st4, heqrun, hwf4, hfill4⟩ := ih st3 (k + 1) hwf3 hfill3
      (fun b hb => hval b (List.mem_cons_of_mem _ hb))
      (by rw [List.length_cons] at hle; omega)
    refine ⟨st4, ?_, hwf4, ?_⟩
    · rw [run_adds, heqadd]
      simp only [heqrun]
      rw [List.length_cons, List.range'_succ, List.map_cons]
    · have h5 : k + (a :: rest).length = k + 1 + rest.length := by
        rw [List.length_cons]
        omega
      rw [h5]
      exact hfill4

/-- C8: starting from the empty registry, any `MAX_NM_OBHOOK` valid Adds
all succeed (receiving descriptors `0, …, MAX_NM_OBHOOK - 1`), and one
further valid Add fails with `FullRegistry`. -/
theorem obhook_capacity_exhaustion :
    ∀ args : List (Nat × Nat × String × Nat), args.length = MAX_NM_OBHOOK →
      (∀ a ∈ args, valid_args a) →
      ∀ extra : Nat × Nat × String × Nat, valid_args extra →
        ∃ st2, run_adds obhk_init args =
            some (st2, (List.range' 0 MAX_NM_OBHOOK).map Int.ofNat) ∧
          add_obhk_internal st2 [] extra.1 extra.2.1
              (some extra.2.2.1) (some extra.2.2.2) =
            some ({ st2 with obhook_errno := some .OBHOOK_ERR_FULL_HOOK }, -1) := by
  intro args hlen hval extra _
  have hwf0 : st_wf obhk_init := ⟨by decide, by decide, by decide⟩
  have hfill0 : filled_upto obhk_init 0 := ⟨by decide, by decide⟩
  obtain ⟨st2, heqrun, -, hfill2⟩ :=
    run_adds_spec args obhk_init 0 hwf0 hfill0 hval (by rw [hlen]; omega)
  rw [hlen] at heqrun hfill2
  refine ⟨st2, by simpa using heqrun, ?_⟩
  obtain ⟨hl2, hs2⟩ := hfill2
  apply add_when_full hl2
  intro i hi
  exact (hs2 i hi).mpr (by omega)

/-- C8 witness: four concrete valid Adds from the initial registry receive
descriptors 0, 1, 2, 3, and a fifth valid Add fails with `FullRegistry`. -/
theorem obhook_capacity_exhaustion_witness :
    (run_adds obhk_init
        [(1, 16, "a", 1), (2, 16, "b", 1),
         (0, 0xffff800000001000, "c", 1), (3, 16, "d", 1)]).map Prod.snd =
      some [0, 1, 2, 3] := by
  obtain ⟨st2, heq, -⟩ := obhook_capacity_exhaustion
    [(1, 16, "a", 1), (2, 16, "b", 1), (0, 0xffff800000001000, "c", 1), (3, 16, "d", 1)]
    (by decide) (by decide) (5, 16, "e", 1) (by decide)
  simp only [heq, Option.map_some']
  decide

/-! Relating the List trace to the registered callbacks. -/

theorem getD_some_lt : ∀ (l : List (Option obhk_cb_record)) (n : Nat)
    (c : obhk_cb_record), l.getD n none = some c → n < l.length := by
  intro l
  induction l with
  | nil => intro n c hg; simp [List.getD] at hg
  | cons x rest ih =>
    intro n c hg
    cases n with
    | zero => simp
    | succ n2 =>
      rw [List.getD_cons_succ] at hg
      exact Nat.succ_lt_succ (ih n2 c hg)

theorem list_cbs_cons {tbl : List (Option obhk_cb_record)} {uid : Nat}
    {rest : List Nat} {cb : obhk_cb_record} (hg : tbl.getD uid none = some cb) :
    list_cbs tbl (uid :: rest) =
      match list_cbs tbl rest with
      | none => none
      | some evs =>
          some (.cb_line cb.uid cb.label cb.enabled :: .invoke cb.cb_func :: evs) := by
  rw [list_cbs, hg]

theorem list_cbs_cons_dangling {tbl : List (Option obhk_cb_record)} {uid : Nat}
    {rest : List Nat} (hg : tbl.getD uid none = none) :
    list_cbs tbl (uid :: rest) = none := by
  rw [list_cbs, hg]

theorem list_sites_cons {heap : List (NodeId × obhk_ht_record)}
    {tbl : List (Option obhk_cb_record)} {pid : NodeId} {rest : List NodeId}
    {pnode : obhk_ht_record} (hg : heap_get heap pid = some pnode) :
    list_sites heap tbl (pid :: rest) =
      match list_cbs tbl pnode.cb_list, list_sites heap tbl rest with
      | some evs1, some evs2 => some (.addr_line pnode.addr :: (evs1 ++ evs2))
      | _, _ => none := by
  rw [list_sites, hg]

theorem list_sites_cons_dangling {heap : List (NodeId × obhk_ht_record)}
    {tbl : List (Option obhk_cb_record)} {pid : NodeId} {rest : List NodeId}
    (hg : heap_get heap pid = none) : list_sites heap tbl (pid :: rest) = none := by
  rw [list_sites, hg]

theorem list_scopes_cons {heap : List (NodeId × obhk_ht_record)}
    {tbl : List (Option obhk_cb_record)} {id : NodeId} {rest : List NodeId}
    {node : obhk_ht_record} (hg : heap_get heap id = some node) :
    list_scopes heap tbl (id :: rest) =
      match list_sites heap tbl node.proc_obhk_tbl, list_scopes heap tbl rest with
      | some evs1, some evs2 => some (.cr3_line node.cr3 :: (evs1 ++ evs2))
      | _, _ => none := by
  rw [list_scopes, hg]

theorem regd_cbs_cons {tbl : List (Option obhk_cb_record)} {uid : Nat}
    {rest : List Nat} {cb : obhk_cb_record} (hg : tbl.getD uid none = some cb) :
    regd_funcs_cbs tbl (uid :: rest) =
      (regd_funcs_cbs tbl rest).map (cb.cb_func :: ·) := by
  rw [regd_funcs_cbs, hg]

theorem regd_cbs_cons_dangling {tbl : List (Option obhk_cb_record)} {uid : Nat}
    {rest : List Nat} (hg : tbl.getD uid none = none) :
    regd_funcs_cbs tbl (uid :: rest) = none := by
  rw [regd_funcs_cbs, hg]

theorem regd_sites_cons {heap : List (NodeId × obhk_ht_record)}
    {tbl : List (Option obhk_cb_record)} {pid : NodeId} {rest : List NodeId}
    {pnode : obhk_ht_record} (hg : heap_get heap pid = some pnode) :
    regd_funcs_sites heap tbl (pid :: rest) =
      match regd_funcs_cbs tbl pnode.cb_list, regd_funcs_sites heap tbl rest with
      | some f1, some f2 => some (f1 ++ f2)
      | _, _ => none := by
  rw [regd_funcs_sites, hg]

theorem regd_sites_cons_dangling {heap : List (NodeId × obhk_ht_record)}
    {tbl : List (Option obhk_cb_record)} {pid : NodeId} {rest : List NodeId}
    (hg : heap_get heap pid = none) :
    regd_funcs_sites heap tbl (pid :: rest) = none := by
  rw [regd_funcs_sites, hg]

theorem regd_scopes_cons {heap : List (NodeId × obhk_ht_record)}
    {tbl : List (Option obhk_cb_record)} {id : NodeId} {rest : List NodeId}
    {node : obhk_ht_record} (hg : heap_get heap id = some node) :
    regd_funcs_scopes heap tbl (id :: rest) =
      match regd_funcs_sites heap tbl node.proc_obhk_tbl,
          regd_funcs_scopes heap tbl rest with
      | some f1, some f2 => some (f1 ++ f2)
      | _, _ => none := by
  rw [regd_funcs_scopes, hg]

theorem regd_scopes_cons_dangling {heap : List (NodeId × obhk_ht_record)}
    {tbl : List (Option obhk_cb_record)} {id : NodeId} {rest : List NodeId}
    (hg : heap_get heap id = none) :
    regd_funcs_scopes heap tbl (id :: rest) = none := by
  rw [regd_funcs_scopes, hg]

theorem invoked_of_list_cbs {tbl : List (Option obhk_cb_record)} :
    ∀ {uids : List Nat} {evs : List list_event}, list_cbs tbl uids = some evs →
      regd_funcs_cbs tbl uids = some (invoked_funcs evs) := by
  intro uids
  induction uids with
  | nil =>
    intro evs h
    cases h
    rfl
  | cons uid rest ih =>
    intro evs h
    cases hg : tbl.getD uid none with
    | none =>
      rw [list_cbs_cons_dangling hg] at h
      exact Option.noConfusion h
    | some cb =>
      rw [list_cbs_cons hg] at h
      cases hr : list_cbs tbl rest with
      | none =>
        rw [hr] at h
        exact Option.noConfusion h
      | some evs2 =>
        rw [hr] at h
        have h2 := Option.some.inj h
        subst h2
        rw [regd_cbs_cons hg, ih hr]
        rfl

theorem invoked_of_list_sites {heap : List (NodeId × obhk_ht_record)}
    {tbl : List (Option obhk_cb_record)} :
    ∀ {pids : List NodeId} {evs : List list_event},
      list_sites heap tbl pids = some evs →
      regd_funcs_sites heap tbl pids = some (invoked_funcs evs) := by
  intro pids
  induction pids with
  | nil =>
    intro evs h
    cases h
    rfl
  | cons pid rest ih =>
    intro evs h
    cases hg : heap_get heap pid with
    | none =>
      rw [list_sites_cons_dangling hg] at h
      exact Option.noConfusion h
    | some pnode =>
      rw [list_sites_cons hg] at h
      cases h1 : list_cbs tbl pnode.cb_list with
      | none =>
        rw [h1] at h
        exact Option.noConfusion h
      | some evs1 =>
        cases h2 : list_sites heap tbl rest with
        | none =>
          rw [h1, h2] at h
          exact Option.noConfusion h
        | some evs2 =>
          rw [h1, h2] at h
          have h3 := Option.some.inj h
          subst h3
          rw [regd_sites_cons hg, invoked_of_list_cbs h1, ih h2]
          simp only [invoked_funcs, List.filterMap_cons, List.filterMap_append]

theorem invoked_of_list_scopes {heap : List (NodeId × obhk_ht_record)}
    {tbl : List (Option obhk_cb_record)} :
    ∀ {ids : List NodeId} {evs : List list_event},
      list_scopes heap tbl ids = some evs →
      regd_funcs_scopes heap tbl ids = some (invoked_funcs evs) := by
  intro ids
  induction ids with
  | nil =>
    intro evs h
    cases h
    rfl
  | cons id rest ih =>
    intro evs h
    cases hg : heap_get heap id with
    | none =>
      rw [list_scopes] at h
      rw [hg] at h
      exact Option.noConfusion h
    | some node =>
      rw [list_scopes_cons hg] at h
      cases h1 : list_sites heap tbl node.proc_obhk_tbl with
      | none =>
        rw [h1] at h
        exact Option.noConfusion h
      | some evs1 =>
        cases h2 : list_scopes heap tbl rest with
        | none =>
          rw [h1, h2] at h
          exact Option.noConfusion h
        | some evs2 =>
          rw [h1, h2] at h
          have h3 := Option.some.inj h
          subst h3
          rw [regd_scopes_cons hg, invoked_of_list_sites h1, ih h2]
          simp only [invoked_funcs, List.filterMap_cons, List.filterMap_append]

/-! The registered-callback enumeration only reads each slot's `cb_func`. -/

theorem regd_cbs_congr {tbl tbl2 : List (Option obhk_cb_record)}
    (H : ∀ u, (tbl2.getD u none).map (fun c => c.cb_func) =
      (tbl.getD u none).map (fun c => c.cb_func)) :
    ∀ uids, regd_funcs_cbs tbl2 uids = regd_funcs_cbs tbl uids := by
  intro uids
  induction uids with
  | nil => rfl
  | cons uid rest ih =>
    have hu := H uid
    cases h1 : tbl.getD uid none with
    | none =>
      rw [h1] at hu
      simp only [Option.map_none'] at hu
      have h2 : tbl2.getD uid none = none := Option.map_eq_none'.mp hu
      rw [regd_cbs_cons_dangling h1, regd_cbs_cons_dangling h2]
    | some c =>
      rw [h1] at hu
      cases h2 : tbl2.getD uid none with
      | none =>
        rw [h2] at hu
        simp at hu
      | some c2 =>
        rw [h2] at hu
        simp only [Option.map_some', Option.some.injEq] at hu
        rw [regd_cbs_cons h1, regd_cbs_cons h2, ih, hu]

theorem regd_sites_congr {heap : List (NodeId × obhk_ht_record)}
    {tbl tbl2 : List (Option obhk_cb_record)}
    (H : ∀ u, (tbl2.getD u none).map (fun c => c.cb_func) =
      (tbl.getD u none).map (fun c => c.cb_func)) :
    ∀ pids, regd_funcs_sites heap tbl2 pids = regd_funcs_sites heap tbl pids := by
  intro pids
  induction pids with
  | nil => rfl
  | cons pid rest ih =>
    cases hg : heap_get heap pid with
    | none => rw [regd_sites_cons_dangling hg, regd_sites_cons_dangling hg]
    | some pnode =>
      rw [regd_sites_cons hg, regd_sites_cons hg, regd_cbs_congr H _, ih]

theorem regd_scopes_congr {heap : List (NodeId × obhk_ht_record)}
    {tbl tbl2 : List (Option obhk_cb_record)}
    (H : ∀ u, (tbl2.getD u none).map (fun c => c.cb_func) =
      (tbl.getD u none).map (fun c => c.cb_func)) :
    ∀ ids, regd_funcs_scopes heap tbl2 ids = regd_funcs_scopes heap tbl ids := by
  intro ids
  induction ids with
  | nil => rfl
  | cons id rest ih =>
    cases hg : heap_get heap id with
    | none => rw [regd_scopes_cons_dangling hg, regd_scopes_cons_dangling hg]
    | some node =>
      rw [regd_scopes_cons hg, regd_scopes_cons hg, regd_sites_congr H _, ih]

/-- C5 (amended): the callbacks a defined List call invokes are exactly
the registered callbacks, in registry order — all of them, not only the
enabled ones: the enumeration `registered_funcs` reads no `enabled` flag,
and Enable/Disable leave it unchanged. -/
theorem obhook_list_invokes_every_registered :
    (∀ st out, obhook_list st = some out →
        registered_funcs st = some (invoked_funcs out.2.1)) ∧
    (∀ st d e out, toggle_obhk st d e = some out →
        registered_funcs out.1 = registered_funcs st) := by
  constructor
  · intro st out h
    unfold obhook_list at h
    split at h
    · exact Option.noConfusion h
    · rename_i evs heq
      simp only [Option.some.injEq] at h
      subst h
      exact invoked_of_list_scopes heq
  · intro st d e out h
    rcases toggle_obhk_cases h with ⟨h1, -⟩ | ⟨cb, hcb, h1, -⟩
    · rw [h1]
      rfl
    · rw [h1]
      unfold registered_funcs
      apply regd_scopes_congr
      intro u
      by_cases hu : u = d.toNat
      · subst hu
        rw [getD_set_self _ _ _ _ (getD_some_lt _ _ _ hcb), hcb]
        rfl
      · rw [getD_set_other _ _ _ _ _ (fun hc => hu hc.symm)]

/-- C5 witness: on the registry holding one disabled hook, the enumeration
of registered callbacks equals the functions List invokes — the single
(disabled) callback `7`. -/
theorem obhook_list_invokes_every_registered_witness :
    registered_funcs c5_after_disable = some [7] := by
  have h := obhook_list_invokes_every_registered.1 c5_after_disable
    ((obhook_list c5_after_disable).get (by decide))
    (Option.some_get (by decide)).symm
  exact h.trans (by decide)
